import Mathlib

/-!
Verification of the TileStache Memcache cache module
(`TileStache/Memcache.py`) against its natural-language specification.

The module consists of a pure key-derivation function `tile_key` and a
`Cache` facade offering `lock`, `unlock`, `remove`, `read` and `save`,
all implemented over a remote memcache client.  We embed the module
shallowly: `tile_key` becomes a pure Lean function on the same data,
and each cache operation becomes an explicit state-passing function
over a store model, with possibly-failing remote calls represented by
an `Except` result (a raised network exception short-circuits the rest
of the Python function body, exactly as the straight-line code does).
Wall-clock time is modelled by rationals (seconds); the poll sleep of
0.2 s in `lock` becomes the exact rational 1/5.
-/

/-- A tile coordinate, as used by `coord.__dict__` in the source:
integer `zoom`, `column` and `row` fields. -/
structure Coord where
  zoom : Int
  column : Int
  row : Int
deriving DecidableEq

/-- The slice of a TileStache layer object that the Memcache module
reads: its `name()`, its `stale_lock_timeout` (seconds) and its
`cache_lifespan` (seconds; `None` modelled as `none`). -/
structure Layer where
  name : String
  stale_lock_timeout : Rat
  cache_lifespan : Option Rat
deriving DecidableEq

/-- The namespace configuration held by the `Cache` object:
`servers`, `revision` and the key prefix string. -/
structure Cache where
  servers : List String
  revision : Int
  key_pfx : String
deriving DecidableEq

/-- Python's `sep.join(strings)`. -/
def joinWith (sep : String) : List String → String
  | [] => ""
  | [s] => s
  | s :: t :: rest => s ++ sep ++ joinWith sep (t :: rest)

/-- Python's `<=` on strings: code-point lexicographic order, via the
character list. -/
def strLe (s t : String) : Prop := s.data ≤ t.data

instance : DecidableRel strLe :=
  fun s t => inferInstanceAs (Decidable (s.data ≤ t.data))

instance : IsTotal String strLe :=
  ⟨fun s t => IsTotal.total (r := (· ≤ ·)) s.data t.data⟩

instance : IsTrans String strLe :=
  ⟨fun _ _ _ h1 h2 => le_trans h1 h2⟩

instance : IsAntisymm String strLe :=
  ⟨fun s t h1 h2 => by
    cases s
    cases t
    exact congrArg String.mk (le_antisymm h1 h2)⟩

/-- `tile_key(layer, coord, auth, format, rev, key_prefix)` from the
source: `'%(zoom)d/%(column)d/%(row)d' % coord.__dict__` renders the
three integers in decimal, `sorted(auth)` sorts the auth-id set
ascending, and the two `'...' % locals()` templates interpolate the
pieces.  Auth ids are arbitrary comparable identifiers rendered with
`str(id)`; they are modelled as their renderings, i.e. as strings, so
`str` is the identity and Python's sort on them is the code-point
lexicographic order `strLe`.  The set is a duplicate-free list in
arbitrary order. -/
def tile_key (layer : Layer) (coord : Coord) (auth : List String)
    (format : String) (rev : Int) ( key_pfx : String) : String :=
  let name := layer.name
  let tile := Int.repr coord.zoom ++ "/" ++ Int.repr coord.column ++ "/" ++
    Int.repr coord.row
  if auth ≠ [] then
    let ids := joinWith "/" (List.insertionSort strLe auth)
    key_pfx ++ "/" ++ Int.repr rev ++ "/" ++ name ++ "/" ++ tile ++ "/" ++
      ids ++ "." ++ format
  else
    key_pfx ++ "/" ++ Int.repr rev ++ "/" ++ name ++ "/" ++ tile ++ "." ++ format

/-- The cache key as the specification words it:
`{key_prefix}/{revision}/{layer_name}/{zoom}/{column}/{row}[/{sorted
auth_ids joined by "/"}].{format}`, the bracketed auth segment present
exactly when the set is non-empty. -/
def derive_key_spec (layer : Layer) (coord : Coord) (auth : List String)
    (format : String) (rev : Int) ( key_pfx : String) : String :=
  joinWith "/" ([ key_pfx, Int.repr rev, layer.name, Int.repr coord.zoom,
    Int.repr coord.column, Int.repr coord.row] ++
    List.insertionSort strLe auth) ++ "." ++ format

theorem joinWith_cons (sep s : String) (rest : List String) (h : rest ≠ []) :
    joinWith sep (s :: rest) = s ++ sep ++ joinWith sep rest := by
  cases rest with
  | nil => exact absurd rfl h
  | cons t ts => rfl

theorem insertionSort_ne_nil {α : Type} (r : α → α → Prop) [DecidableRel r]
    {l : List α} (h : l ≠ []) : List.insertionSort r l ≠ [] := by
  intro hs
  exact h (List.Perm.eq_nil ((List.perm_insertionSort r l).symm.trans (hs ▸ List.Perm.refl _)))

/-- C1: for every namespace configuration and tile identity, the key
computed by `tile_key` is exactly the string the specification
describes: `{key_prefix}/{revision}/{layer_name}/{zoom}/{column}/{row}`
followed by `/{sorted auth_ids joined by "/"}` exactly when the auth
set is non-empty, and ending in `.{format}`. -/
theorem tile_key_matches_spec_format (layer : Layer) (coord : Coord)
    (auth : List String) (format : String) (rev : Int) ( key_pfx : String) :
    tile_key layer coord auth format rev key_pfx =
      derive_key_spec layer coord auth format rev key_pfx := by
  unfold tile_key derive_key_spec
  by_cases h : auth = []
  · subst h
    simp [joinWith, String.append_assoc]
  · have hs : List.insertionSort strLe auth ≠ [] := insertionSort_ne_nil strLe h
    simp only [h, if_pos (by simp [h] : auth ≠ [])]
    rw [List.cons_append, List.cons_append, List.cons_append, List.cons_append,
      List.cons_append, List.cons_append, List.nil_append]
    rw [joinWith_cons _ _ _ (by simp [hs]), joinWith_cons _ _ _ (by simp [hs]),
      joinWith_cons _ _ _ (by simp [hs]), joinWith_cons _ _ _ (by simp [hs]),
      joinWith_cons _ _ _ (by simp [hs]), joinWith_cons _ _ _ hs]
    simp [String.append_assoc]

/-- C2: two auth-id lists holding the same ids in any order produce the
identical key string: sorting before joining makes `tile_key` depend
only on the auth set, not its order. -/
theorem tile_key_auth_order_independent (layer : Layer) (coord : Coord)
    (auth₁ auth₂ : List String) (format : String) (rev : Int) ( key_pfx : String)
    (hperm : auth₁.Perm auth₂) :
    tile_key layer coord auth₁ format rev key_pfx =
      tile_key layer coord auth₂ format rev key_pfx := by
  have hsort : List.insertionSort strLe auth₁ = List.insertionSort strLe auth₂ := by
    refine List.eq_of_perm_of_sorted ?_ (List.sorted_insertionSort _ _)
      (List.sorted_insertionSort _ _)
    exact (List.perm_insertionSort _ _).trans (hperm.trans (List.perm_insertionSort _ _).symm)
  unfold tile_key
  by_cases h : auth₁ = []
  · subst h
    rw [hperm.symm.eq_nil]
  · have h₂ : auth₂ ≠ [] := fun hn => h (hn ▸ hperm).eq_nil
    simp only [h, h₂, ne_eq, not_false_iff, if_pos, hsort]

/-- Witness for C2 at a concrete input: the auth sets `{"7", "3"}` and
`{"3", "7"}` given in different orders yield the same key. -/
theorem tile_key_auth_order_independent_witness :
    (["7", "3"] : List String).Perm ["3", "7"] ∧
      tile_key ⟨"osm", 1, none⟩ ⟨10, 511, 340⟩ ["7", "3"] "png" 0 "pfx" =
        tile_key ⟨"osm", 1, none⟩ ⟨10, 511, 340⟩ ["3", "7"] "png" 0 "pfx" :=
  ⟨by decide, tile_key_auth_order_independent ⟨"osm", 1, none⟩ ⟨10, 511, 340⟩
    ["7", "3"] ["3", "7"] "png" 0 "pfx" (by decide)⟩

/-!
## The store model and the five cache operations

The remote memcache store maps keys to a value together with an
optional absolute expiry time (the module sets an entry's TTL on
`set`/`add`; TTL 0 means no expiry).  Each Python operation opens a
fresh `Client`, performs one or more remote calls, and (on the lines
that are reached) calls `disconnect_all()`.  A remote call may raise a
network error; raising skips every later line of the Python function
body, so the embedding threads an `Except` and records in `released`
whether the `disconnect_all()` line was reached.
-/

/-- A raised network/store failure. -/
inductive MemErr
  | network
deriving DecidableEq

/-- The remote store: keys to (value, optional absolute expiry). -/
def Store := String → Option (String × Option Rat)

/-- The empty remote store. -/
def emptyStore : Store := fun _ => none

/-- `mem.get(key)` at wall-clock time `now`: `None` when the key is
absent or its expiry time has passed. -/
def storeGet (st : Store) (now : Rat) (key : String) : Option String :=
  match st key with
  | none => none
  | some (v, none) => some v
  | some (v, some exp) => if now < exp then some v else none

/-- `mem.set(key, value, ttl)` at time `now`: unconditional overwrite;
TTL `0` stores without expiry. -/
def storeSet (st : Store) (key v : String) (now ttl : Rat) : Store :=
  fun k => if k = key then some (v, if ttl = 0 then none else some (now + ttl)) else st k

/-- `mem.delete(key)`: removes the key; a no-op when absent (the
memcache client signals absence by its return value, it does not
raise). -/
def storeDel (st : Store) (key : String) : Store :=
  fun k => if k = key then none else st k

/-- Python `layer.cache_lifespan or 0`. -/
def lifespanOrZero : Option Rat → Rat
  | none => 0
  | some x => x

/-- Outcome of one cache operation: the returned value or the raised
error, the store afterwards, whether a client was opened
(`mem = Client(self.servers)` ran) and whether `mem.disconnect_all()`
ran. -/
structure OpOutcome (α : Type) where
  result : Except MemErr α
  store : Store
  opened : Bool
  released : Bool

/-- `Cache.read`: open a client, `value = mem.get(key)` (which may
raise, in which case the `disconnect_all()` line is never reached),
then disconnect and return the value. -/
def readOp (cache : Cache) (layer : Layer) (coord : Coord) (auth : List String)
    (format : String) (st : Store) (now : Rat) (getFails : Bool) :
    OpOutcome (Option String) :=
  let key := tile_key layer coord auth format cache.revision cache.key_pfx
  if getFails then
    { result := Except.error MemErr.network, store := st, opened := true,
      released := false }
  else
    { result := Except.ok (storeGet st now key), store := st, opened := true,
      released := true }

/-- `Cache.save`: open a client, `mem.set(key, body, cache_lifespan or 0)`
(which may raise, skipping the disconnect), then disconnect. -/
def saveOp (cache : Cache) (body : String) (layer : Layer) (coord : Coord)
    (auth : List String) (format : String) (st : Store) (now : Rat)
    (setFails : Bool) : OpOutcome Unit :=
  let key := tile_key layer coord auth format cache.revision cache.key_pfx
  if setFails then
    { result := Except.error MemErr.network, store := st, opened := true,
      released := false }
  else
    { result := Except.ok (), opened := true, released := true,
      store := storeSet st key body now (lifespanOrZero layer.cache_lifespan) }

/-- `Cache.remove`: open a client, `mem.delete(key)` (which may raise,
skipping the disconnect), then disconnect. -/
def removeOp (cache : Cache) (layer : Layer) (coord : Coord) (auth : List String)
    (format : String) (st : Store) (delFails : Bool) : OpOutcome Unit :=
  let key := tile_key layer coord auth format cache.revision cache.key_pfx
  if delFails then
    { result := Except.error MemErr.network, store := st, opened := true,
      released := false }
  else
    { result := Except.ok (), store := storeDel st key, opened := true,
      released := true }

/-- `Cache.unlock`: open a client, `mem.delete(key+'-lock')` (which may
raise, skipping the disconnect), then disconnect. -/
def unlockOp (cache : Cache) (layer : Layer) (coord : Coord) (auth : List String)
    (format : String) (st : Store) (delFails : Bool) : OpOutcome Unit :=
  let key := tile_key layer coord auth format cache.revision cache.key_pfx
  if delFails then
    { result := Except.error MemErr.network, store := st, opened := true,
      released := false }
  else
    { result := Except.ok (), store := storeDel st (key ++ "-lock"), opened := true,
      released := true }

/-!
## The lock loop

`Cache.lock` computes `due = time() + layer.stale_lock_timeout`, then
polls: while `time() < due`, try `mem.add(key+'-lock', 'locked.',
stale_lock_timeout)` (the atomic create); on success return, otherwise
sleep 0.2 s and retry.  Once the deadline has passed it performs the
unconditional `mem.set` (the steal) and returns.  The whole body is
wrapped in `try ... finally mem.disconnect_all()`.

Since the concurrent effects of other cache clients decide whether the
atomic create succeeds, the outcome of the `add` at each poll instant
is an oracle `addRes : Rat → Except MemErr Bool` (errors model a
raised network failure at that call).  The events list records every
remote `add` and `set` with its wall-clock instant; calls are
instantaneous and each sleep advances the clock by exactly 1/5 s.
-/

/-- A remote call performed by the lock loop, with its instant:
`add t` is the atomic create attempt, `set t` the unconditional
overwrite (the steal). -/
inductive LockEv
  | add (t : Rat)
  | set (t : Rat)
deriving DecidableEq

/-- Outcome of the `try` body of `Cache.lock`. -/
structure LoopOut where
  result : Except MemErr Unit
  returnTime : Rat
  events : List LockEv

/-- The polling loop of `Cache.lock` plus the steal after it. -/
def lockLoop (addRes : Rat → Except MemErr Bool) (due now : Rat)
    (evs : List LockEv) : LoopOut :=
  if h : now < due then
    match addRes now with
    | Except.error e =>
      { result := Except.error e, returnTime := now, events := evs ++ [LockEv.add now] }
    | Except.ok true =>
      { result := Except.ok (), returnTime := now, events := evs ++ [LockEv.add now] }
    | Except.ok false => lockLoop addRes due (now + 1/5) (evs ++ [LockEv.add now])
  else
    { result := Except.ok (), returnTime := now, events := evs ++ [LockEv.set now] }
termination_by (Int.ceil ((due - now) * 5)).toNat
decreasing_by
  have hq : (0 : Rat) < (due - now) * 5 := by
    have := sub_pos.mpr h
    positivity
  have h1 : ((due - (now + 1/5)) * 5 : Rat) = (due - now) * 5 - 1 := by ring
  have hc : 0 < Int.ceil ((due - now) * 5) := Int.ceil_pos.mpr hq
  rw [h1, Int.ceil_sub_one]
  omega

/-- Outcome of a whole `Cache.lock` call. -/
structure LockOutcome where
  result : Except MemErr Unit
  returnTime : Rat
  events : List LockEv
  opened : Bool
  released : Bool

/-- `Cache.lock`: open a client, run the polling loop with
`due = now + layer.stale_lock_timeout`; the `finally` clause runs
`mem.disconnect_all()` on every exit path, normal or raising. -/
def lockOp (cache : Cache) (layer : Layer) (coord : Coord) (auth : List String)
    (format : String) (now : Rat) (addRes : Rat → Except MemErr Bool) :
    LockOutcome :=
  let due := now + layer.stale_lock_timeout
  let o := lockLoop addRes due now []
  { result := o.result, returnTime := o.returnTime, events := o.events,
    opened := true, released := true }

/-!
## Claims about the non-lock operations
-/

/-- C7: `unlock` deletes the Lock Entry at `{cache key}-lock`
unconditionally and is idempotent: on any store — including one with
no Lock Entry — it succeeds, leaves the lock key absent, and running
it a second time succeeds again and leaves the store unchanged. -/
theorem unlock_unconditional_idempotent (cache : Cache) (layer : Layer)
    (coord : Coord) (auth : List String) (format : String) (st : Store) :
    (unlockOp cache layer coord auth format st false).result = Except.ok () ∧
    (unlockOp cache layer coord auth format st false).store
      (tile_key layer coord auth format cache.revision cache.key_pfx ++ "-lock")
      = none ∧
    (unlockOp cache layer coord auth format
        (unlockOp cache layer coord auth format st false).store false).result
      = Except.ok () ∧
    ∀ k, (unlockOp cache layer coord auth format
        (unlockOp cache layer coord auth format st false).store false).store k
      = (unlockOp cache layer coord auth format st false).store k := by
  refine ⟨rfl, ?_, rfl, ?_⟩
  · simp [unlockOp, storeDel]
  · intro k
    simp only [unlockOp, if_neg Bool.false_ne_true, storeDel]
    split <;> rfl

/-- C8: `save` then `read` on the same identity, with no intervening
remove or overwrite and with the entry still live at read time (no TTL
set, or the read happening before the expiry instant), returns exactly
the saved body. -/
theorem save_read_round_trip (cache : Cache) (body : String) (layer : Layer)
    (coord : Coord) (auth : List String) (format : String) (st : Store)
    (t t' : Rat)
    (hlive : lifespanOrZero layer.cache_lifespan = 0 ∨
      t' < t + lifespanOrZero layer.cache_lifespan) :
    (readOp cache layer coord auth format
        (saveOp cache body layer coord auth format st t false).store t' false).result
      = Except.ok (some body) := by
  simp only [readOp, saveOp, if_neg Bool.false_ne_true, storeGet, storeSet, if_pos rfl]
  rcases hlive with h0 | hlt
  · rw [if_pos h0]
    simp
  · by_cases h0 : lifespanOrZero layer.cache_lifespan = 0
    · rw [if_pos h0]
      simp
    · rw [if_neg h0]
      simp [if_pos hlt]

/-- Witness for C8 at a concrete input: saving body `tiledata` for a
layer with no cache lifespan and reading it back returns `tiledata`. -/
theorem save_read_round_trip_witness :
    (lifespanOrZero (Layer.cache_lifespan ⟨"osm", 1, none⟩) = 0 ∨
      (0 : Rat) < 0 + lifespanOrZero (Layer.cache_lifespan ⟨"osm", 1, none⟩)) ∧
    (readOp ⟨["127.0.0.1:11211"], 0, "pfx"⟩ ⟨"osm", 1, none⟩ ⟨1, 2, 3⟩ [] "png"
        (saveOp ⟨["127.0.0.1:11211"], 0, "pfx"⟩ "tiledata" ⟨"osm", 1, none⟩ ⟨1, 2, 3⟩
          [] "png" emptyStore 0 false).store 0 false).result
      = Except.ok (some "tiledata") :=
  ⟨Or.inl rfl, save_read_round_trip ⟨["127.0.0.1:11211"], 0, "pfx"⟩ "tiledata"
    ⟨"osm", 1, none⟩ ⟨1, 2, 3⟩ [] "png" emptyStore 0 0 (Or.inl rfl)⟩

/-- C9: `remove` then `read` on the same identity returns the absence
marker (`None`, inside a normal successful return), whether or not a
Tile Entry existed beforehand. -/
theorem remove_read_absent (cache : Cache) (layer : Layer) (coord : Coord)
    (auth : List String) (format : String) (st : Store) (t' : Rat) :
    (readOp cache layer coord auth format
        (removeOp cache layer coord auth format st false).store t' false).result
      = Except.ok none := by
  simp [readOp, removeOp, storeGet, storeDel]

/-- C4 counterexample: when the remote `get` raises inside
`Cache.read`, the `mem.disconnect_all()` line of `read` is never
reached — the failure propagates with the connection still open, so
not every operation releases the client session on every exit path. -/
theorem read_failure_skips_release :
    (readOp ⟨["127.0.0.1:11211"], 0, ""⟩ ⟨"osm", 1, none⟩ ⟨0, 0, 0⟩ [] "png"
        emptyStore 0 true).result = Except.error MemErr.network ∧
    (readOp ⟨["127.0.0.1:11211"], 0, ""⟩ ⟨"osm", 1, none⟩ ⟨0, 0, 0⟩ [] "png"
        emptyStore 0 true).released = false :=
  ⟨rfl, rfl⟩

/-- C4 amended: every operation opens a fresh client session; `lock`
releases it on every exit path (its body is wrapped in
`try/finally`), but `read`, `save`, `remove` and `unlock` release it
exactly when their single store call does not raise — a raising call
skips the `disconnect_all()` line and the connection leaks. -/
theorem connection_release_per_operation (cache : Cache) (layer : Layer)
    (coord : Coord) (auth : List String) (format : String) (body : String)
    (st : Store) (now : Rat) (addRes : Rat → Except MemErr Bool)
    (gf sf df uf : Bool) :
    (lockOp cache layer coord auth format now addRes).opened = true ∧
    (lockOp cache layer coord auth format now addRes).released = true ∧
    (readOp cache layer coord auth format st now gf).opened = true ∧
    (readOp cache layer coord auth format st now gf).released = !gf ∧
    (saveOp cache body layer coord auth format st now sf).opened = true ∧
    (saveOp cache body layer coord auth format st now sf).released = !sf ∧
    (removeOp cache layer coord auth format st df).opened = true ∧
    (removeOp cache layer coord auth format st df).released = !df ∧
    (unlockOp cache layer coord auth format st uf).opened = true ∧
    (unlockOp cache layer coord auth format st uf).released = !uf := by
  refine ⟨rfl, rfl, ?_, ?_, ?_, ?_, ?_, ?_, ?_, ?_⟩ <;>
    cases gf <;> cases sf <;> cases df <;> cases uf <;> rfl

/-!
## Claims about the lock loop
-/

theorem lockLoop_set_after (addRes : Rat → Except MemErr Bool) (due : Rat) :
    ∀ (now : Rat) (evs : List LockEv),
      (∀ t, LockEv.set t ∈ evs → due ≤ t) →
      ∀ t, LockEv.set t ∈ (lockLoop addRes due now evs).events → due ≤ t := by
  intro now evs
  induction now, evs using lockLoop.induct addRes due with
  | case1 now evs hlt e he =>
    intro hev t ht
    rw [lockLoop, dif_pos hlt, he] at ht
    rcases List.mem_append.mp ht with hl | hl
    · exact hev t hl
    · simp at hl
  | case2 now evs hlt he =>
    intro hev t ht
    rw [lockLoop, dif_pos hlt, he] at ht
    rcases List.mem_append.mp ht with hl | hl
    · exact hev t hl
    · simp at hl
  | case3 now evs hlt he ih =>
    intro hev t ht
    rw [lockLoop, dif_pos hlt, he] at ht
    refine ih ?_ t ht
    intro u hu
    rcases List.mem_append.mp hu with hl | hl
    · exact hev u hl
    · simp at hl
  | case4 now evs hge =>
    intro hev t ht
    rw [lockLoop, dif_neg hge] at ht
    rcases List.mem_append.mp ht with hl | hl
    · exact hev t hl
    · simp at hl
      exact hl ▸ le_of_not_lt hge

theorem lockLoop_ok_early_no_set (addRes : Rat → Except MemErr Bool) (due : Rat) :
    ∀ (now : Rat) (evs : List LockEv),
      (∀ t, LockEv.set t ∉ evs) →
      (lockLoop addRes due now evs).result = Except.ok () →
      (lockLoop addRes due now evs).returnTime < due →
      ∀ t, LockEv.set t ∉ (lockLoop addRes due now evs).events := by
  intro now evs
  induction now, evs using lockLoop.induct addRes due with
  | case1 now evs hlt e he =>
    intro _ hok _
    rw [lockLoop, dif_pos hlt, he] at hok
    simp at hok
  | case2 now evs hlt he =>
    intro hev _ _ t ht
    rw [lockLoop, dif_pos hlt, he] at ht
    rcases List.mem_append.mp ht with hl | hl
    · exact hev t hl
    · simp at hl
  | case3 now evs hlt he ih =>
    intro hev hok hrt t
    rw [lockLoop, dif_pos hlt, he] at hok hrt ⊢
    refine ih ?_ hok hrt t
    intro u hu
    rcases List.mem_append.mp hu with hl | hl
    · exact hev u hl
    · simp at hl
  | case4 now evs hge =>
    intro _ _ hrt
    rw [lockLoop, dif_neg hge] at hrt
    exact absurd hrt (by simpa using hge)

theorem lockLoop_return_lt (addRes : Rat → Except MemErr Bool) (due : Rat) :
    ∀ (now : Rat) (evs : List LockEv), now < due + 1/5 →
      (lockLoop addRes due now evs).returnTime < due + 1/5 := by
  intro now evs
  induction now, evs using lockLoop.induct addRes due with
  | case1 now evs hlt e he =>
    intro hnow
    rw [lockLoop, dif_pos hlt, he]
    exact hnow
  | case2 now evs hlt he =>
    intro hnow
    rw [lockLoop, dif_pos hlt, he]
    exact hnow
  | case3 now evs hlt he ih =>
    intro _
    rw [lockLoop, dif_pos hlt, he]
    exact ih (by linarith)
  | case4 now evs hge =>
    intro hnow
    rw [lockLoop, dif_neg hge]
    exact hnow

/-- C10: with a zero or negative `stale_lock_timeout` the deadline
`due = time() + stale_lock_timeout` is already in the past, so the
polling loop body never runs: `lock` performs no atomic create at all,
issues the unconditional overwrite-set immediately, and returns at its
start instant with a normal (non-raising) result — whatever the other
cache clients are doing. -/
theorem lock_nonpositive_timeout_steals_immediately (cache : Cache)
    (layer : Layer) (coord : Coord) (auth : List String) (format : String)
    (now : Rat) (addRes : Rat → Except MemErr Bool)
    (h : layer.stale_lock_timeout ≤ 0) :
    (lockOp cache layer coord auth format now addRes).events = [LockEv.set now] ∧
    (lockOp cache layer coord auth format now addRes).returnTime = now ∧
    (lockOp cache layer coord auth format now addRes).result = Except.ok () := by
  have hnot : ¬ now < now + layer.stale_lock_timeout := by linarith
  simp only [lockOp]
  rw [lockLoop, dif_neg hnot]
  exact ⟨rfl, rfl, rfl⟩

/-- Witness for C10 at a concrete input: a layer with
`stale_lock_timeout = -1` makes `lock` called at time 7 steal at once
and return at time 7, with no `add` ever issued. -/
theorem lock_nonpositive_timeout_steals_immediately_witness :
    (Layer.stale_lock_timeout ⟨"osm", -1, none⟩ ≤ 0) ∧
    ((lockOp ⟨["127.0.0.1:11211"], 0, ""⟩ ⟨"osm", -1, none⟩ ⟨0, 0, 0⟩ [] "png" 7
        (fun _ => Except.ok false)).events = [LockEv.set 7] ∧
      (lockOp ⟨["127.0.0.1:11211"], 0, ""⟩ ⟨"osm", -1, none⟩ ⟨0, 0, 0⟩ [] "png" 7
        (fun _ => Except.ok false)).returnTime = 7 ∧
      (lockOp ⟨["127.0.0.1:11211"], 0, ""⟩ ⟨"osm", -1, none⟩ ⟨0, 0, 0⟩ [] "png" 7
        (fun _ => Except.ok false)).result = Except.ok ()) :=
  ⟨by decide, lock_nonpositive_timeout_steals_immediately _ _ _ _ _ _ _ (by decide)⟩

/-- C6: in every `lock` execution the unconditional overwrite-set (the
steal) happens only at an instant at or past the deadline
`start + stale_lock_timeout`; and whenever the call returns normally
before the deadline (an atomic create succeeded at some poll), no
steal was ever issued. -/
theorem lock_steal_only_after_deadline (cache : Cache) (layer : Layer)
    (coord : Coord) (auth : List String) (format : String) (now : Rat)
    (addRes : Rat → Except MemErr Bool) :
    (∀ t, LockEv.set t ∈ (lockOp cache layer coord auth format now addRes).events →
      now + layer.stale_lock_timeout ≤ t) ∧
    ((lockOp cache layer coord auth format now addRes).result = Except.ok () →
      (lockOp cache layer coord auth format now addRes).returnTime <
        now + layer.stale_lock_timeout →
      ∀ t, LockEv.set t ∉ (lockOp cache layer coord auth format now addRes).events) := by
  constructor
  · intro t ht
    simp only [lockOp] at ht
    exact lockLoop_set_after addRes (now + layer.stale_lock_timeout) now []
      (by simp) t ht
  · intro hok hrt t
    simp only [lockOp] at hok hrt ⊢
    exact lockLoop_ok_early_no_set addRes (now + layer.stale_lock_timeout) now []
      (by simp) hok hrt t

/-- Witness for C6 at concrete inputs: with `stale_lock_timeout = 0`
the single steal of a `lock` call started at time 0 happens no earlier
than the deadline 0; and with `stale_lock_timeout = 1` and an atomic
create that succeeds at the first poll, no steal is ever issued. -/
theorem lock_steal_only_after_deadline_witness :
    ((0 : Rat) + Layer.stale_lock_timeout ⟨"osm", 0, none⟩ ≤ 0) ∧
    LockEv.set 99 ∉ (lockOp ⟨["127.0.0.1:11211"], 0, ""⟩ ⟨"osm", 1, none⟩
      ⟨0, 0, 0⟩ [] "png" 0 (fun _ => Except.ok true)).events :=
  ⟨(lock_steal_only_after_deadline ⟨["127.0.0.1:11211"], 0, ""⟩ ⟨"osm", 0, none⟩
      ⟨0, 0, 0⟩ [] "png" 0 (fun _ => Except.ok false)).1 0
      (by simp only [lockOp]; rw [lockLoop, dif_neg (by norm_num)]; simp),
    (lock_steal_only_after_deadline ⟨["127.0.0.1:11211"], 0, ""⟩ ⟨"osm", 1, none⟩
      ⟨0, 0, 0⟩ [] "png" 0 (fun _ => Except.ok true)).2
      (by simp only [lockOp]; rw [lockLoop, dif_pos (by norm_num)])
      (by simp only [lockOp]; rw [lockLoop, dif_pos (by norm_num)]; norm_num) 99⟩

/-- C5 counterexample: with `stale_lock_timeout = 1/2` s and a lock
holder that never unlocks (every atomic create fails), a `lock` call
started at time 0 polls at 0, 1/5 and 2/5, leaves the loop at 3/5 and
returns then — later than `start + stale_lock_timeout = 1/2`.  The
poll quantum makes the nominal timeout a soft bound only. -/
theorem lock_can_return_after_deadline :
    (lockOp ⟨["127.0.0.1:11211"], 0, ""⟩ ⟨"osm", 1/2, none⟩ ⟨0, 0, 0⟩ [] "png" 0
        (fun _ => Except.ok false)).returnTime = 3/5 ∧
    ¬ ((lockOp ⟨["127.0.0.1:11211"], 0, ""⟩ ⟨"osm", 1/2, none⟩ ⟨0, 0, 0⟩ [] "png" 0
        (fun _ => Except.ok false)).returnTime ≤
        0 + Layer.stale_lock_timeout ⟨"osm", 1/2, none⟩) := by
  have h : (lockOp ⟨["127.0.0.1:11211"], 0, ""⟩ ⟨"osm", 1/2, none⟩ ⟨0, 0, 0⟩ []
      "png" 0 (fun _ => Except.ok false)).returnTime = 3/5 := by
    simp only [lockOp]
    rw [lockLoop, dif_pos (by norm_num)]
    rw [lockLoop, dif_pos (by norm_num)]
    rw [lockLoop, dif_pos (by norm_num)]
    rw [lockLoop, dif_neg (by norm_num)]
    norm_num
  refine ⟨h, ?_⟩
  rw [h]
  norm_num

/-- C5 amended: for every positive `stale_lock_timeout`, a `lock` call
started at time `t` returns — by successful create, by steal, or by a
raised store failure — no later than `t + stale_lock_timeout` plus one
poll interval (1/5 s); in particular `lock` always terminates. -/
theorem lock_bounded_wait_with_poll_slack (cache : Cache) (layer : Layer)
    (coord : Coord) (auth : List String) (format : String) (now : Rat)
    (addRes : Rat → Except MemErr Bool) (h : 0 < layer.stale_lock_timeout) :
    (lockOp cache layer coord auth format now addRes).returnTime ≤
      now + layer.stale_lock_timeout + 1/5 := by
  have hb := lockLoop_return_lt addRes (now + layer.stale_lock_timeout) now []
    (by linarith)
  simp only [lockOp]
  linarith

/-- Witness for C5-amended at a concrete input: with
`stale_lock_timeout = 1` and every create failing, the `lock` call
started at 0 returns by 1 + 1/5. -/
theorem lock_bounded_wait_with_poll_slack_witness :
    ((0 : Rat) < Layer.stale_lock_timeout ⟨"osm", 1, none⟩) ∧
    (lockOp ⟨["127.0.0.1:11211"], 0, ""⟩ ⟨"osm", 1, none⟩ ⟨0, 0, 0⟩ [] "png" 0
        (fun _ => Except.ok false)).returnTime ≤
      0 + Layer.stale_lock_timeout ⟨"osm", 1, none⟩ + 1/5 :=
  ⟨by decide, lock_bounded_wait_with_poll_slack _ _ _ _ _ _ _ (by decide)⟩

/-!
## Decimal representations

Facts about `Nat.repr` and `Int.repr` (the embedding of Python's `%d`
and `str`): every character is a decimal digit (with a possible
leading `-` for negative integers), and the representation is
injective.  Used to recover the tile fields from the cache key.
-/

theorem digitChar_isDigit : ∀ m : Nat, m < 10 → (Nat.digitChar m).isDigit = true := by
  decide

theorem digitChar_val : ∀ m : Nat, m < 10 →
    (Nat.digitChar m).toNat - Char.toNat '0' = m := by
  decide

theorem toDigitsCore_append : ∀ (fuel n : Nat) (ds : List Char),
    Nat.toDigitsCore 10 fuel n ds = Nat.toDigitsCore 10 fuel n [] ++ ds := by
  intro fuel
  induction fuel with
  | zero => intro n ds; rfl
  | succ fuel ih =>
    intro n ds
    by_cases h : n / 10 = 0
    · simp [Nat.toDigitsCore, h]
    · simp only [Nat.toDigitsCore, if_neg h]
      rw [ih (n / 10) (Nat.digitChar (n % 10) :: ds), ih (n / 10) [Nat.digitChar (n % 10)],
        List.append_assoc]
      rfl

theorem toDigitsCore_isDigit : ∀ (fuel n : Nat) (ds : List Char),
    (∀ c ∈ ds, c.isDigit = true) →
    ∀ c ∈ Nat.toDigitsCore 10 fuel n ds, c.isDigit = true := by
  intro fuel
  induction fuel with
  | zero => intro n ds h c hc; exact h c hc
  | succ fuel ih =>
    intro n ds h c hc
    simp only [Nat.toDigitsCore] at hc
    have hds : ∀ d ∈ Nat.digitChar (n % 10) :: ds, d.isDigit = true := by
      intro d hd
      rcases List.mem_cons.mp hd with h1 | h1
      · exact h1 ▸ digitChar_isDigit _ (Nat.mod_lt _ (by norm_num))
      · exact h d h1
    by_cases h0 : n / 10 = 0
    · rw [if_pos h0] at hc
      exact hds c hc
    · rw [if_neg h0] at hc
      exact ih (n / 10) _ hds c hc

/-- Big-endian decimal read-back of a character list. -/
def listVal (acc : Nat) : List Char → Nat
  | [] => acc
  | c :: cs => listVal (10 * acc + (c.toNat - Char.toNat '0')) cs

theorem listVal_append_singleton (xs : List Char) (c : Char) : ∀ acc : Nat,
    listVal acc (xs ++ [c]) = 10 * listVal acc xs + (c.toNat - Char.toNat '0') := by
  induction xs with
  | nil => intro acc; rfl
  | cons x xs ih => intro acc; exact ih _

theorem toDigitsCore_val : ∀ (fuel n : Nat), n < fuel →
    listVal 0 (Nat.toDigitsCore 10 fuel n []) = n := by
  intro fuel
  induction fuel with
  | zero => intro n h; exact absurd h (Nat.not_lt_zero n)
  | succ fuel ih =>
    intro n h
    simp only [Nat.toDigitsCore]
    by_cases h0 : n / 10 = 0
    · rw [if_pos h0]
      have hn : n < 10 := by
        by_contra hge
        exact absurd h0 (by
          have : 10 ≤ n := Nat.le_of_not_lt hge
          have := Nat.div_le_div_right (c := 10) this
          simp at this
          omega)
      show 10 * 0 + ((Nat.digitChar (n % 10)).toNat - Char.toNat '0') = n
      rw [digitChar_val _ (Nat.mod_lt _ (by norm_num)), Nat.mod_eq_of_lt hn]
      omega
    · rw [if_neg h0]
      rw [toDigitsCore_append fuel (n / 10) [Nat.digitChar (n % 10)]]
      rw [listVal_append_singleton]
      have hpos : 0 < n := by
        rcases Nat.eq_zero_or_pos n with h1 | h1
        · exact absurd (by simp [h1]) h0
        · exact h1
      have hlt : n / 10 < fuel :=
        lt_of_lt_of_le (Nat.div_lt_self hpos (by norm_num)) (Nat.lt_succ_iff.mp h)
      rw [ih (n / 10) hlt, digitChar_val _ (Nat.mod_lt _ (by norm_num))]
      exact Nat.div_add_mod n 10

theorem natRepr_val (n : Nat) : listVal 0 (Nat.repr n).data = n := by
  show listVal 0 (Nat.toDigits 10 n).asString.data = n
  have : (Nat.toDigits 10 n).asString.data = Nat.toDigits 10 n := rfl
  rw [this]
  exact toDigitsCore_val (n + 1) n (Nat.lt_succ_self n)

theorem natRepr_inj {m n : Nat} (h : Nat.repr m = Nat.repr n) : m = n := by
  have := congrArg (fun s => listVal 0 s.data) h
  simpa [natRepr_val] using this

theorem natRepr_isDigit (n : Nat) : ∀ c ∈ (Nat.repr n).data, c.isDigit = true := by
  intro c hc
  exact toDigitsCore_isDigit (n + 1) n [] (by simp) c hc

theorem natRepr_ne_nil (n : Nat) : (Nat.repr n).data ≠ [] := by
  show (Nat.toDigits 10 n).asString.data ≠ []
  show Nat.toDigitsCore 10 (n + 1) n [] ≠ []
  simp only [Nat.toDigitsCore]
  by_cases h0 : n / 10 = 0
  · simp [h0]
  · rw [if_neg h0, toDigitsCore_append]
    simp

theorem isDigit_ne_slash {c : Char} (h : c.isDigit = true) : c ≠ '/' := by
  intro he
  rw [he] at h
  exact absurd h (by decide)

theorem isDigit_ne_dot {c : Char} (h : c.isDigit = true) : c ≠ '.' := by
  intro he
  rw [he] at h
  exact absurd h (by decide)

theorem isDigit_ne_dash {c : Char} (h : c.isDigit = true) : c ≠ '-' := by
  intro he
  rw [he] at h
  exact absurd h (by decide)

theorem intRepr_chars (i : Int) :
    ∀ c ∈ (Int.repr i).data, c.isDigit = true ∨ c = '-' := by
  intro c hc
  cases i with
  | ofNat m => exact Or.inl (natRepr_isDigit m c hc)
  | negSucc m =>
    have : (Int.repr (Int.negSucc m)).data = '-' :: (Nat.repr (m + 1)).data := rfl
    rw [this] at hc
    rcases List.mem_cons.mp hc with h1 | h1
    · exact Or.inr h1
    · exact Or.inl (natRepr_isDigit (m + 1) c h1)

theorem intRepr_ne_slash (i : Int) : ∀ c ∈ (Int.repr i).data, c ≠ '/' := by
  intro c hc
  rcases intRepr_chars i c hc with h | h
  · exact isDigit_ne_slash h
  · rw [h]; decide

theorem intRepr_ne_stop (i : Int) :
    ∀ c ∈ (Int.repr i).data, ¬ (c = '/' ∨ c = '.') := by
  intro c hc h
  rcases intRepr_chars i c hc with hd | hd
  · rcases h with h | h
    · exact isDigit_ne_slash hd h
    · exact isDigit_ne_dot hd h
  · rw [hd] at h
    rcases h with h | h <;> exact absurd h (by decide)

theorem string_ext {s t : String} (h : s.data = t.data) : s = t := by
  cases s
  cases t
  exact congrArg String.mk h

theorem intRepr_inj {i j : Int} (h : Int.repr i = Int.repr j) : i = j := by
  cases i with
  | ofNat m =>
    cases j with
    | ofNat n => exact congrArg Int.ofNat (natRepr_inj h)
    | negSucc n =>
      exfalso
      have hd : (Nat.repr m).data = '-' :: (Nat.repr (n + 1)).data :=
        congrArg String.data h
      have : ('-' : Char) ∈ (Nat.repr m).data := by
        rw [hd]; exact List.mem_cons_self _ _
      exact isDigit_ne_dash (natRepr_isDigit m '-' this) rfl
  | negSucc m =>
    cases j with
    | ofNat n =>
      exfalso
      have hd : (Nat.repr n).data = '-' :: (Nat.repr (m + 1)).data :=
        congrArg String.data h.symm
      have : ('-' : Char) ∈ (Nat.repr n).data := by
        rw [hd]; exact List.mem_cons_self _ _
      exact isDigit_ne_dash (natRepr_isDigit n '-' this) rfl
    | negSucc n =>
      have hd : ('-' :: (Nat.repr (m + 1)).data) = ('-' :: (Nat.repr (n + 1)).data) :=
        congrArg String.data h
      have h2 : Nat.repr (m + 1) = Nat.repr (n + 1) :=
        string_ext (List.cons.inj hd).2
      have h3 := natRepr_inj h2
      have hmn : m = n := by omega
      rw [hmn]

/-!
## Splitting the cache key back into its segments
-/

/-- Unique splitting at a stop character: if neither prefix contains a
stop character and both separators are stop characters, the two
decompositions coincide. -/
theorem append_stop_inj {P : Char → Prop} :
    ∀ (a₁ a₂ b₁ b₂ : List Char) (c₁ c₂ : Char),
      (∀ c ∈ a₁, ¬ P c) → (∀ c ∈ a₂, ¬ P c) → P c₁ → P c₂ →
      a₁ ++ c₁ :: b₁ = a₂ ++ c₂ :: b₂ → a₁ = a₂ ∧ c₁ = c₂ ∧ b₁ = b₂ := by
  intro a₁
  induction a₁ with
  | nil =>
    intro a₂ b₁ b₂ c₁ c₂ _ h₂ hc₁ _ h
    cases a₂ with
    | nil =>
      simp only [List.nil_append] at h
      exact ⟨rfl, (List.cons.inj h).1, (List.cons.inj h).2⟩
    | cons x xs =>
      simp only [List.nil_append, List.cons_append] at h
      exact absurd hc₁ ((List.cons.inj h).1 ▸ h₂ x (List.mem_cons_self x xs))
  | cons a as ih =>
    intro a₂ b₁ b₂ c₁ c₂ h₁ h₂ hc₁ hc₂ h
    cases a₂ with
    | nil =>
      simp only [List.nil_append, List.cons_append] at h
      exact absurd hc₂ ((List.cons.inj h).1 ▸ h₁ a (List.mem_cons_self a as))
    | cons x xs =>
      simp only [List.cons_append] at h
      have hax : a = x := (List.cons.inj h).1
      have htail := (List.cons.inj h).2
      have := ih xs b₁ b₂ c₁ c₂ (fun c hc => h₁ c (List.mem_cons_of_mem a hc))
        (fun c hc => h₂ c (List.mem_cons_of_mem x hc)) hc₁ hc₂ htail
      exact ⟨by rw [hax, this.1], this.2.1, this.2.2⟩

/-- `"/".join` at the character-list level. -/
def joinSlash : List (List Char) → List Char
  | [] => []
  | [s] => s
  | s :: t :: rest => s ++ '/' :: joinSlash (t :: rest)

theorem joinWith_slash_data : ∀ ss : List String,
    (joinWith "/" ss).data = joinSlash (ss.map String.data) := by
  intro ss
  induction ss with
  | nil => rfl
  | cons s ts ih =>
    cases ts with
    | nil => rfl
    | cons t rest =>
      show (s ++ "/" ++ joinWith "/" (t :: rest)).data = _
      rw [String.data_append, String.data_append, ih, List.append_assoc]
      rfl

theorem joinSlash_chars {Q : Char → Prop} (hq : Q '/') :
    ∀ ss : List (List Char), (∀ s ∈ ss, ∀ c ∈ s, Q c) →
      ∀ c ∈ joinSlash ss, Q c := by
  intro ss
  induction ss with
  | nil => intro _ c hc; simp [joinSlash] at hc
  | cons s ts ih =>
    intro h c hc
    cases ts with
    | nil => exact h s (List.mem_cons_self s []) c hc
    | cons t rest =>
      rw [show joinSlash (s :: t :: rest) = s ++ '/' :: joinSlash (t :: rest) from rfl] at hc
      rcases List.mem_append.mp hc with h1 | h1
      · exact h s (List.mem_cons_self _ _) c h1
      · rcases List.mem_cons.mp h1 with h2 | h2
        · exact h2 ▸ hq
        · exact ih (fun u hu => h u (List.mem_cons_of_mem s hu)) c h2

/-- `"/".join` is injective on lists of non-empty slash-free
segments. -/
theorem joinSlash_inj :
    ∀ ss ts : List (List Char),
      (∀ s ∈ ss, s ≠ [] ∧ ∀ c ∈ s, c ≠ '/') →
      (∀ s ∈ ts, s ≠ [] ∧ ∀ c ∈ s, c ≠ '/') →
      joinSlash ss = joinSlash ts → ss = ts := by
  intro ss
  induction ss with
  | nil =>
    intro ts _ ht h
    cases ts with
    | nil => rfl
    | cons t rest =>
      exfalso
      cases rest with
      | nil => exact (ht t (List.mem_cons_self _ _)).1 h.symm
      | cons t' rest' =>
        have : ([] : List Char) = t ++ '/' :: joinSlash (t' :: rest') := h
        rcases List.append_eq_nil.mp this.symm with ⟨_, h2⟩
        exact List.cons_ne_nil _ _ h2
  | cons s ss' ih =>
    intro ts hs ht h
    cases ts with
    | nil =>
      exfalso
      cases ss' with
      | nil => exact (hs s (List.mem_cons_self _ _)).1 h
      | cons s' rest' =>
        have : s ++ '/' :: joinSlash (s' :: rest') = ([] : List Char) := h
        rcases List.append_eq_nil.mp this with ⟨_, h2⟩
        exact List.cons_ne_nil _ _ h2
    | cons t ts' =>
      cases ss' with
      | nil =>
        cases ts' with
        | nil => exact congrArg (· :: []) h
        | cons t' rest' =>
          exfalso
          have hmem : ('/' : Char) ∈ s := by
            rw [show joinSlash [s] = s from rfl] at h
            rw [h, show joinSlash (t :: t' :: rest') = t ++ '/' :: joinSlash (t' :: rest') from rfl]
            exact List.mem_append.mpr (Or.inr (List.mem_cons_self _ _))
          exact (hs s (List.mem_cons_self _ _)).2 '/' hmem rfl
      | cons s' rest =>
        cases ts' with
        | nil =>
          exfalso
          have hmem : ('/' : Char) ∈ t := by
            rw [show joinSlash [t] = t from rfl] at h
            rw [← h, show joinSlash (s :: s' :: rest) = s ++ '/' :: joinSlash (s' :: rest) from rfl]
            exact List.mem_append.mpr (Or.inr (List.mem_cons_self _ _))
          exact (ht t (List.mem_cons_self _ _)).2 '/' hmem rfl
        | cons t' rest' =>
          have h' : s ++ '/' :: joinSlash (s' :: rest) = t ++ '/' :: joinSlash (t' :: rest') := h
          have hsp := append_stop_inj (P := (· = '/')) s t _ _ '/' '/'
            (hs s (List.mem_cons_self _ _)).2 (ht t (List.mem_cons_self _ _)).2 rfl rfl h'
          have htl := ih (t' :: rest')
            (fun u hu => hs u (List.mem_cons_of_mem s hu))
            (fun u hu => ht u (List.mem_cons_of_mem t hu)) hsp.2.2
          rw [hsp.1, htl]

theorem slash_data : ("/" : String).data = ['/'] := rfl

theorem dot_data : ("." : String).data = ['.'] := rfl

/-- The cache key, flattened to its character list. -/
theorem tile_key_data (layer : Layer) (coord : Coord) (auth : List String)
    (format : String) (rev : Int) ( key_pfx : String) :
    (tile_key layer coord auth format rev key_pfx).data =
      key_pfx.data ++ '/' :: ((Int.repr rev).data ++ '/' :: (layer.name.data ++ '/' ::
        ((Int.repr coord.zoom).data ++ '/' :: ((Int.repr coord.column).data ++ '/' ::
        ((Int.repr coord.row).data ++
          (if auth = [] then '.' :: format.data
           else '/' :: (joinSlash ((List.insertionSort strLe auth).map String.data) ++
             '.' :: format.data))))))) := by
  unfold tile_key
  by_cases h : auth = []
  · simp [h, String.data_append, slash_data, dot_data, List.append_assoc]
  · simp [String.data_append, slash_data, dot_data, List.append_assoc,
      joinWith_slash_data, h]

/-- Injectivity of `String.data`. -/
theorem string_data_injective : Function.Injective String.data :=
  fun _ _ h => string_ext h

/-- C3 amended: with a fixed namespace configuration, for tile
identities whose layer names contain no `/` character and whose
rendered auth ids are each non-empty and contain neither `/` nor `.`,
equal cache keys force equal layer name, zoom, column, row, format,
and auth-id set membership.  (A `/` inside a layer name breaks the
claim — see the counterexample — and so do a `/`, a `.` or emptiness
inside a rendered auth id, e.g. the auth sets `{"1/2"}` and
`{"1", "2"}` collide.) -/
theorem tile_key_injective_on_clean_identities
    (layer₁ layer₂ : Layer) (coord₁ coord₂ : Coord) (auth₁ auth₂ : List String)
    (format₁ format₂ : String) (rev : Int) ( key_pfx : String)
    (hn₁ : ∀ c ∈ layer₁.name.data, c ≠ '/')
    (hn₂ : ∀ c ∈ layer₂.name.data, c ≠ '/')
    (ha₁ : ∀ s ∈ auth₁, s.data ≠ [] ∧ ∀ c ∈ s.data, c ≠ '/' ∧ c ≠ '.')
    (ha₂ : ∀ s ∈ auth₂, s.data ≠ [] ∧ ∀ c ∈ s.data, c ≠ '/' ∧ c ≠ '.')
    (hk : tile_key layer₁ coord₁ auth₁ format₁ rev key_pfx =
          tile_key layer₂ coord₂ auth₂ format₂ rev key_pfx) :
    layer₁.name = layer₂.name ∧ coord₁ = coord₂ ∧
      (∀ a, a ∈ auth₁ ↔ a ∈ auth₂) ∧ format₁ = format₂ := by
  have hd := congrArg String.data hk
  rw [tile_key_data, tile_key_data] at hd
  have hd1 := List.append_cancel_left hd
  have hd2 := List.append_cancel_left (List.cons.inj hd1).2
  have hd3 := (List.cons.inj hd2).2
  -- hd3 : name₁ ++ '/' :: rest₁ = name₂ ++ '/' :: rest₂
  have hname := append_stop_inj (P := (· = '/')) _ _ _ _ '/' '/' hn₁ hn₂ rfl rfl hd3
  have hzoom := append_stop_inj (P := (· = '/')) _ _ _ _ '/' '/'
    (intRepr_ne_slash coord₁.zoom) (intRepr_ne_slash coord₂.zoom) rfl rfl hname.2.2
  have hcol := append_stop_inj (P := (· = '/')) _ _ _ _ '/' '/'
    (intRepr_ne_slash coord₁.column) (intRepr_ne_slash coord₂.column) rfl rfl hzoom.2.2
  have hrowtail := hcol.2.2
  have hnm : layer₁.name = layer₂.name := string_ext hname.1
  have hz : coord₁.zoom = coord₂.zoom := intRepr_inj (string_ext hzoom.1)
  have hc : coord₁.column = coord₂.column := intRepr_inj (string_ext hcol.1)
  have hids_chars : ∀ auth : List String,
      (∀ s ∈ auth, s.data ≠ [] ∧ ∀ c ∈ s.data, c ≠ '/' ∧ c ≠ '.') →
      ∀ s ∈ (List.insertionSort strLe auth).map String.data,
        s ≠ [] ∧ ∀ c ∈ s, c ≠ '/' := by
    intro auth ha s hs
    rcases List.mem_map.mp hs with ⟨str, hstr, rfl⟩
    have hmem : str ∈ auth := (List.perm_insertionSort strLe auth).mem_iff.mp hstr
    exact ⟨(ha str hmem).1, fun c hc => ((ha str hmem).2 c hc).1⟩
  have hids_no_dot : ∀ auth : List String,
      (∀ s ∈ auth, s.data ≠ [] ∧ ∀ c ∈ s.data, c ≠ '/' ∧ c ≠ '.') →
      ∀ c ∈ joinSlash ((List.insertionSort strLe auth).map String.data),
        ¬ (c = '.') := by
    intro auth ha
    refine joinSlash_chars (by decide) _ ?_
    intro s hs c hc
    rcases List.mem_map.mp hs with ⟨str, hstr, rfl⟩
    have hmem : str ∈ auth := (List.perm_insertionSort strLe auth).mem_iff.mp hstr
    exact ((ha str hmem).2 c hc).2
  by_cases h₁ : auth₁ = []
  · by_cases h₂ : auth₂ = []
    · rw [if_pos h₁, if_pos h₂] at hrowtail
      have hrow := append_stop_inj (P := fun c => c = '/' ∨ c = '.') _ _ _ _ '.' '.'
        (intRepr_ne_stop coord₁.row) (intRepr_ne_stop coord₂.row)
        (Or.inr rfl) (Or.inr rfl) hrowtail
      have hr : coord₁.row = coord₂.row := intRepr_inj (string_ext hrow.1)
      refine ⟨hnm, ?_, ?_, string_ext hrow.2.2⟩
      · cases coord₁
        cases coord₂
        simp only [Coord.mk.injEq]
        exact ⟨hz, hc, hr⟩
      · rw [h₁, h₂]
        exact fun a => Iff.rfl
    · rw [if_pos h₁, if_neg h₂] at hrowtail
      have hrow := append_stop_inj (P := fun c => c = '/' ∨ c = '.') _ _ _ _ '.' '/'
        (intRepr_ne_stop coord₁.row) (intRepr_ne_stop coord₂.row)
        (Or.inr rfl) (Or.inl rfl) hrowtail
      exact absurd hrow.2.1 (by decide)
  · by_cases h₂ : auth₂ = []
    · rw [if_neg h₁, if_pos h₂] at hrowtail
      have hrow := append_stop_inj (P := fun c => c = '/' ∨ c = '.') _ _ _ _ '/' '.'
        (intRepr_ne_stop coord₁.row) (intRepr_ne_stop coord₂.row)
        (Or.inl rfl) (Or.inr rfl) hrowtail
      exact absurd hrow.2.1 (by decide)
    · rw [if_neg h₁, if_neg h₂] at hrowtail
      have hrow := append_stop_inj (P := fun c => c = '/' ∨ c = '.') _ _ _ _ '/' '/'
        (intRepr_ne_stop coord₁.row) (intRepr_ne_stop coord₂.row)
        (Or.inl rfl) (Or.inl rfl) hrowtail
      have hr : coord₁.row = coord₂.row := intRepr_inj (string_ext hrow.1)
      have hids := append_stop_inj (P := (· = '.')) _ _ _ _ '.' '.'
        (hids_no_dot auth₁ ha₁) (hids_no_dot auth₂ ha₂) rfl rfl hrow.2.2
      have hjoin := joinSlash_inj _ _ (hids_chars auth₁ ha₁) (hids_chars auth₂ ha₂) hids.1
      have hsorted : List.insertionSort strLe auth₁ = List.insertionSort strLe auth₂ :=
        List.map_injective_iff.mpr string_data_injective hjoin
      have hperm : auth₁.Perm auth₂ := by
        have p1 : auth₁.Perm (List.insertionSort strLe auth₂) := by
          rw [← hsorted]
          exact (List.perm_insertionSort _ auth₁).symm
        exact p1.trans (List.perm_insertionSort _ auth₂)
      refine ⟨hnm, ?_, fun a => hperm.mem_iff, string_ext hids.2.2⟩
      cases coord₁
      cases coord₂
      simp only [Coord.mk.injEq]
      exact ⟨hz, hc, hr⟩

/-- Witness for C3-amended at a concrete input: the slash-free layer
name `osm` with equal fields and the clean auth-id set `{"a", "b"}`
listed in two orders satisfies the hypotheses, and the theorem yields
the equal auth-set membership. -/
theorem tile_key_injective_on_clean_identities_witness :
    (∀ c ∈ (Layer.name ⟨"osm", 1, none⟩).data, c ≠ '/') ∧
    (∀ s ∈ (["b", "a"] : List String), s.data ≠ [] ∧ ∀ c ∈ s.data, c ≠ '/' ∧ c ≠ '.') ∧
    tile_key ⟨"osm", 1, none⟩ ⟨4, 5, 6⟩ ["b", "a"] "png" 3 "p" =
      tile_key ⟨"osm", 1, none⟩ ⟨4, 5, 6⟩ ["a", "b"] "png" 3 "p" ∧
    (∀ a, a ∈ (["b", "a"] : List String) ↔ a ∈ (["a", "b"] : List String)) :=
  ⟨by decide, by decide, by decide,
    (tile_key_injective_on_clean_identities ⟨"osm", 1, none⟩ ⟨"osm", 1, none⟩
      ⟨4, 5, 6⟩ ⟨4, 5, 6⟩ ["b", "a"] ["a", "b"] "png" "png" 3 "p"
      (by decide) (by decide) (by decide) (by decide) (by decide)).2.2.1⟩

/-- C3 counterexample: with the fixed namespace (prefix `p`,
revision 0), the identity (layer `a`, zoom 1, column 2, row 3, auth
`{10}`, format `png`) and the identity (layer `a/1`, zoom 2, column 3,
row 10, empty auth, format `png`) differ in layer name, zoom, column,
row and auth membership, yet both derive the cache key
`p/0/a/1/2/3/10.png`: key derivation is not injective over all tile
identities. -/
theorem tile_key_not_injective :
    tile_key ⟨"a", 1, none⟩ ⟨1, 2, 3⟩ ["10"] "png" 0 "p" =
      tile_key ⟨"a/1", 1, none⟩ ⟨2, 3, 10⟩ [] "png" 0 "p" ∧
    Layer.name ⟨"a", 1, none⟩ ≠ Layer.name ⟨"a/1", 1, none⟩ := by
  constructor
  · decide
  · decide
